import Mathlib

/-!
Verification of the translation/inspection prompt pipeline in
`code_scribe/lib/_llm.py` (functions `prompt_translate` and `prompt_inspect`).

Strings are embedded as `List Char`; Python file handles become an explicit
association-list file system; the generation backend becomes an oracle
function returning `Except`; every write and backend call is logged so that
frame conditions ("no further writes", "backend not called") are statable.
-/

/-- Python whitespace characters relevant to `str.strip()` (ASCII range;
the inputs in this development are ASCII). -/
def isPySpace (c : Char) : Bool :=
  c = ' ' || c = '\t' || c = '\n' || c = '\r' || c = '\x0b' || c = '\x0c'

/-- Python `str.strip()`: drop leading and trailing whitespace. -/
def pyStrip (s : List Char) : List Char :=
  ((s.dropWhile isPySpace).reverse.dropWhile isPySpace).reverse

/-- Python `str.lower()` on one character (ASCII range). -/
def pyLowerChar (c : Char) : Char :=
  if 'A' ≤ c ∧ c ≤ 'Z' then Char.ofNat (c.toNat + 32) else c

/-- Python `str.lower()` (ASCII range). -/
def pyLower (s : List Char) : List Char := s.map pyLowerChar

/-- Auxiliary accumulator for `readlines`. -/
def readlinesAux : List Char → List Char → List (List Char)
  | acc, [] => if acc = [] then [] else [acc.reverse]
  | acc, c :: rest =>
    if c = '\n' then (acc.reverse ++ ['\n']) :: readlinesAux [] rest
    else readlinesAux (c :: acc) rest

/-- Python `file.readlines()`: split the content after each newline, keeping
the newline on each line; a final piece without a newline is kept if non-empty. -/
def readlines (s : List Char) : List (List Char) := readlinesAux [] s

/-- `_llm.py` line 142-144: a line is classified as a comment when its
stripped, lower-cased form starts with `"c"`, `"!!"` or `"!"` and does not
start with `"complex"`. -/
def is_comment (line : List Char) : Bool :=
  let t := pyLower (pyStrip line)
  (("c".toList.isPrefixOf t) || ("!!".toList.isPrefixOf t) || ("!".toList.isPrefixOf t))
    && !("complex".toList.isPrefixOf t)

/-- `_llm.py` lines 136-148: the list of surviving (non-comment) source lines. -/
def source_code (content : List Char) : List (List Char) :=
  (readlines content).filter (fun l => !is_comment l)

/-- The ingested source block: surviving lines joined back together
(`"".join(source_code)`). -/
def filterSource (content : List Char) : List Char := (source_code content).flatten

/-- `_llm.py` lines 150-153: append the `<source>` block to the seed content
when the filtered line list is non-empty. -/
def sourceInject (tc content : List Char) : List Char :=
  if (source_code content).isEmpty then tc
  else tc ++ "\n".toList ++ "<source>\n".toList ++ (source_code content).flatten
    ++ "</source>".toList

/-- `_llm.py` lines 157-165: append the `<draft>` block for an existing draft
file when its line list is non-empty. -/
def draftInjectContent (tc d : List Char) : List Char :=
  let draft_code := readlines d
  if draft_code.isEmpty then tc
  else tc ++ "\n\n".toList ++ "<draft>\n".toList ++ draft_code.flatten
    ++ "</draft>".toList

/-- The whole per-unit prompt build (`_llm.py` lines 135-165): source
injection on top of the cached seed, then draft injection when the draft
file exists (`some d`) and is skipped when it does not (`none`). -/
def buildContent (cached src : List Char) (draft : Option (List Char)) : List Char :=
  let tc1 := sourceInject cached src
  match draft with
  | some d => draftInjectContent tc1 d
  | none => tc1

/-- Split a string around the first occurrence of `pat`:
`some (pre, post)` with the input equal to `pre ++ pat ++ post` and `pre`
shortest possible; `none` when `pat` does not occur. -/
def splitFirst (pat : List Char) : List Char → Option (List Char × List Char)
  | [] => if pat.isPrefixOf ([] : List Char) then some ([], []) else none
  | c :: rest =>
    if pat.isPrefixOf (c :: rest) then some ([], (c :: rest).drop pat.length)
    else
      match splitFirst pat rest with
      | some (pre, post) => some (c :: pre, post)
      | none => none

/-- `re.search(r"open(.*?)close", s, re.DOTALL)`: the captured group of the
leftmost match with a lazy interior — the text between the first occurrence
of `openT` and the earliest occurrence of `closeT` after it. -/
def reSearch (openT closeT s : List Char) : Option (List Char) :=
  match splitFirst openT s with
  | none => none
  | some (_, rest) =>
    match splitFirst closeT rest with
    | none => none
    | some (mid, _) => some mid

/-- `_llm.py` lines 181-183: search for the `<csource>` span. -/
def csource_search (r : List Char) : Option (List Char) :=
  reSearch "<csource>".toList "</csource>".toList r

/-- `_llm.py` lines 184-186: search for the `<fsource>` span. -/
def fsource_search (r : List Char) : Option (List Char) :=
  reSearch "<fsource>".toList "</fsource>".toList r

/-- `_llm.py` lines 188-191: content written to the primary artifact —
the captured `<csource>` interior when found, the whole response otherwise. -/
def primaryText (r : List Char) : List Char :=
  match csource_search r with
  | some s => s
  | none => r

/-- `_llm.py` lines 193-194: content written (when found) to the secondary
artifact — the captured `<fsource>` interior. -/
def secondaryText (r : List Char) : Option (List Char) := fsource_search r

/-- One chat message (`{"role": ..., "content": ...}`). -/
structure Msg where
  role : List Char
  content : List Char
deriving DecidableEq

/-- One translation unit: the aligned 5-tuple drawn from `mapping`
(`_llm.py` lines 125-127). -/
structure Unit' where
  fsource : List Char
  csource : List Char
  finterface : List Char
  cdraft : List Char
  promptfile : List Char
deriving DecidableEq

/-- File system: association list from path to content; a write conses a
fresh binding, `List.lookup` finds the most recent one. -/
abbrev FS := List (List Char × List Char)

/-- `os.path.isfile` against the modelled file system. -/
def isfile (fs : FS) (p : List Char) : Bool := (List.lookup p fs).isSome

/-- Writing a file (`open(p, "w")` followed by writing `v`). -/
def fsWrite (fs : FS) (p v : List Char) : FS := (p, v) :: fs

/-- The two generation backends `prompt_translate` can construct
(`_llm.py` lines 109-113). Their inference internals are outside the
modelled core; construction identity is what the claims need. -/
inductive NeuralModel
  | tf (ckpt : List Char)
  | openai_
deriving DecidableEq

/-- Backend selection (`_llm.py` lines 106-116): an existing path gives the
local checkpoint backend, else the case-insensitive literal `"openai"` gives
the hosted backend, else `ValueError(f"{model} not available")`. -/
def selectModel (pathExists : List Char → Bool) (model : List Char) :
    Except (List Char) NeuralModel :=
  if pathExists model then .ok (.tf model)
  else if pyLower model = "openai".toList then .ok .openai_
  else .error (model ++ " not available".toList)

/-- Replace the content of the trailing message
(`chat_template[-1]["content"] = c`). -/
def setLastContent : List Msg → List Char → List Msg
  | [], _ => []
  | [m], c => [{ role := m.role, content := c }]
  | m :: m₂ :: rest, c => m :: setLastContent (m₂ :: rest) c

/-- Stand-in for the external `json.dump` serializer of the working
conversation; the claims depend only on the produced write, not on the
encoding, so a simple injective-enough rendering is used. -/
def jsonDump (msgs : List Msg) : List Char :=
  msgs.flatMap (fun m => m.role ++ ":".toList ++ m.content ++ "\n".toList)

/-- Per-unit resolution, mirroring the spec's state machine vocabulary:
either the entry guard skips the unit or it is processed. -/
inductive UStatus
  | skipped
  | processed
deriving DecidableEq

/-- Mutable run state threaded through the batch: the file system, the chat
template (mutated in place and restored, as in the source), plus
instrumentation logs of writes performed, backend calls issued and per-unit
resolutions. -/
structure RunSt where
  fs : FS
  tmpl : List Msg
  writes : List (List Char × List Char)
  chats : List (List Msg)
  statuses : List UStatus
deriving DecidableEq

/-- One iteration of the `prompt_translate` loop (`_llm.py` lines 125-199)
for unit `u`. `chat` is the backend-inference oracle (its failures model
backend exceptions). Errors (`ValueError`/`FileNotFoundError`/list index
errors and backend failures) abort the run, as uncaught Python exceptions do. -/
def processUnit (chat : List Msg → Except (List Char) (List Char))
    (neural : Option NeuralModel) (save_prompts : Bool) (st : RunSt) (u : Unit') :
    Except (List Char) RunSt :=
  if !(isfile st.fs u.csource) || save_prompts then
    match st.tmpl.getLast? with
    | none => .error "IndexError: list index out of range".toList
    | some lastM =>
      let cached_prompt := lastM.content
      match List.lookup u.fsource st.fs with
      | none => .error ("FileNotFoundError: ".toList ++ u.fsource)
      | some src =>
        let tc := buildContent cached_prompt src (List.lookup u.cdraft st.fs)
        let working := setLastContent st.tmpl tc
        let fs₁ := if save_prompts then fsWrite st.fs u.promptfile (jsonDump working) else st.fs
        let writes₁ := if save_prompts then st.writes ++ [(u.promptfile, jsonDump working)]
          else st.writes
        match neural with
        | some _ =>
          match chat working with
          | .error e => .error e
          | .ok result =>
            let prim := primaryText result
            let sec := secondaryText result
            let fs₂ := fsWrite (fsWrite fs₁ u.csource prim) u.finterface (sec.getD [])
            .ok { fs := fs₂
                  tmpl := setLastContent working cached_prompt
                  writes := writes₁ ++ [(u.csource, prim), (u.finterface, sec.getD [])]
                  chats := st.chats ++ [working]
                  statuses := st.statuses ++ [.processed] }
        | none =>
          .ok { fs := fs₁
                tmpl := setLastContent working cached_prompt
                writes := writes₁
                chats := st.chats
                statuses := st.statuses ++ [.processed] }
  else
    .ok { st with statuses := st.statuses ++ [.skipped] }

/-- The batch loop of `prompt_translate` over all units, aborting on the
first error. -/
def processUnits (chat : List Msg → Except (List Char) (List Char))
    (neural : Option NeuralModel) (save_prompts : Bool) (st : RunSt) :
    List Unit' → Except (List Char) RunSt
  | [] => .ok st
  | u :: us =>
    match processUnit chat neural save_prompts st u with
    | .error e => .error e
    | .ok st' => processUnits chat neural save_prompts st' us

/-- `prompt_translate(mapping, seed_prompt, model, save_prompts)`
(`_llm.py` lines 99-199): line 106 guards backend resolution with the
truthiness test `if model:` — both `None` and the empty string are falsy,
so either skips backend construction entirely and the batch runs with no
backend; a truthy (non-empty) selector is resolved first and its failure
aborts the run. `template` is the conversation loaded from the seed-prompt
file (external parsing is outside the modelled core). -/
def prompt_translate (pathExists : List Char → Bool)
    (chat : List Msg → Except (List Char) (List Char)) (units : List Unit')
    (template : List Msg) (fs : FS) (model : Option (List Char))
    (save_prompts : Bool) : Except (List Char) RunSt :=
  let st₀ : RunSt := { fs := fs, tmpl := template, writes := [], chats := [], statuses := [] }
  match model with
  | none => processUnits chat none save_prompts st₀ units
  | some m =>
    if m = [] then processUnits chat none save_prompts st₀ units
    else
      match selectModel pathExists m with
      | .error e => .error e
      | .ok nm => processUnits chat (some nm) save_prompts st₀ units

/-- The template value observed at the start of each unit, collected until
the run ends or aborts. -/
def seenTemplates (chat : List Msg → Except (List Char) (List Char))
    (neural : Option NeuralModel) (save_prompts : Bool) (st : RunSt) :
    List Unit' → List (List Msg)
  | [] => []
  | u :: us =>
    st.tmpl :: (match processUnit chat neural save_prompts st u with
      | .ok st' => seenTemplates chat neural save_prompts st' us
      | .error _ => [])

/-- The fixed instructional preamble of `prompt_inspect`
(`_llm.py` lines 225-239), transcribed verbatim. -/
def inspect_preamble : List Char :=
  ("I will give you source code from a set of files that\n"
    ++ "belong to a scientific computing codebase. I want you\n"
    ++ "to understand the source code and answer a query that\n"
    ++ "follows. Source code for each will be separated using\n"
    ++ "elements <filename> ... </filename>. Additional\n"
    ++ "information related to the project structure may also be\n"
    ++ "provided within <index> ... </index>. This information will\n"
    ++ "contain an index of subroutines, functions, and modules contained\n"
    ++ "in each file. Note that you will find subroutines and functions\n"
    ++ "repeat along nodes in the directory tree. This maybe due to a directory-based\n"
    ++ "inheritance design implemented by the project. If the index element is not\n"
    ++ "present, then you may ignore it. The query prompt will be provided at then end\n"
    ++ "using elements <query> ... </query>.\n\n").toList

/-- One iteration of the aggregation loop of `prompt_inspect`
(`_llm.py` lines 241-251): append a `\n<path>\n...</path>\n` block when the
file's line list is non-empty. -/
def inspectStep (acc : List Char) (pc : List Char × List Char) : List Char :=
  if (readlines pc.2).isEmpty then acc
  else acc ++ "\n".toList ++ "<".toList ++ pc.1 ++ ">\n".toList
    ++ (readlines pc.2).flatten ++ "</".toList ++ pc.1 ++ ">\n".toList

/-- The block contributed by one file to the aggregated inspection content. -/
def inspectBlock (pc : List Char × List Char) : List Char :=
  if (readlines pc.2).isEmpty then []
  else "\n".toList ++ "<".toList ++ pc.1 ++ ">\n".toList
    ++ (readlines pc.2).flatten ++ "</".toList ++ pc.1 ++ ">\n".toList

/-- The aggregated content of the single inspection message
(`_llm.py` lines 223-253): preamble, then one block per file, then the query
block. `files` pairs each path of `filelist` with the content read from it. -/
def inspect_content (files : List (List Char × List Char)) (query : List Char) :
    List Char :=
  (files.foldl inspectStep inspect_preamble)
  ++ "\n".toList ++ "<query>\n".toList ++ query ++ "\n</query>\n".toList

/-- Boolean substring occurrence: does `pat` occur contiguously in `s`? -/
def occursB (pat : List Char) : List Char → Bool
  | [] => pat.isEmpty
  | c :: rest => pat.isPrefixOf (c :: rest) || occursB pat rest

/-- The full inspection conversation: exactly one user message holding the
aggregated content. -/
def prompt_inspect_template (files : List (List Char × List Char))
    (query : List Char) : List Msg :=
  [{ role := "user".toList, content := inspect_content files query }]

/-- The working conversation used for a non-skipped unit `u`: the template
with the per-unit content injected into its trailing message. -/
def workingTemplate (st : RunSt) (u : Unit') (lastM : Msg) (src : List Char) : List Msg :=
  setLastContent st.tmpl (buildContent lastM.content src (List.lookup u.cdraft st.fs))

/-- The state after a non-skipped unit processed with a backend whose call
returned `result`: both output files written, logs extended, template
restored. -/
def runResult (st : RunSt) (u : Unit') (sp : Bool) (working : List Msg)
    (result : List Char) : RunSt :=
  { fs := fsWrite (fsWrite (if sp then fsWrite st.fs u.promptfile (jsonDump working)
        else st.fs) u.csource (primaryText result)) u.finterface
        ((secondaryText result).getD [])
    tmpl := st.tmpl
    writes := (if sp then st.writes ++ [(u.promptfile, jsonDump working)] else st.writes)
      ++ [(u.csource, primaryText result), (u.finterface, (secondaryText result).getD [])]
    chats := st.chats ++ [working]
    statuses := st.statuses ++ [.processed] }

/-- The state after a non-skipped unit processed without a backend: at most
the prompt-dump write happens. -/
def noBackendResult (st : RunSt) (u : Unit') (sp : Bool) (working : List Msg) : RunSt :=
  { fs := if sp then fsWrite st.fs u.promptfile (jsonDump working) else st.fs
    tmpl := st.tmpl
    writes := if sp then st.writes ++ [(u.promptfile, jsonDump working)] else st.writes
    chats := st.chats
    statuses := st.statuses ++ [.processed] }

/-- The spec's wording of the comment filter (§4.3), stated independently of
the code: after trimming and case-folding, the line starts with one of the
markers `"c"`, `"!!"`, `"!"` and does not start with `"complex"`. -/
def specDroppedLine (line : List Char) : Prop :=
  ("c".toList <+: pyLower (pyStrip line)
    ∨ "!!".toList <+: pyLower (pyStrip line)
    ∨ "!".toList <+: pyLower (pyStrip line))
  ∧ ¬ ("complex".toList <+: pyLower (pyStrip line))

/-- Concrete fixture: one translation unit. -/
def exUnit : Unit' :=
  { fsource := "a.f90".toList
    csource := "a.c".toList
    finterface := "a.h".toList
    cdraft := "a.draft".toList
    promptfile := "a.json".toList }

/-- Concrete fixture: source file present, primary output absent, a stale
secondary output present. -/
def exFS : FS :=
  [("a.f90".toList, "x = 1\n".toList), ("a.h".toList, "OLD".toList)]

/-- Concrete fixture: a one-message seed template. -/
def exTemplate : List Msg := [{ role := "user".toList, content := "SEED".toList }]

/-- Concrete fixture: fresh run state over `exFS`. -/
def exSt : RunSt :=
  { fs := exFS, tmpl := exTemplate, writes := [], chats := [], statuses := [] }

/-- Concrete fixture: like `exSt` but with the primary output already on
disk. -/
def exSt2 : RunSt :=
  { fs := [("a.f90".toList, "x = 1\n".toList), ("a.c".toList, "OLD".toList)]
    tmpl := exTemplate, writes := [], chats := [], statuses := [] }

/-- Concrete fixture: a backend oracle whose response contains neither
output tag. -/
def exChat : List Msg → Except (List Char) (List Char) :=
  fun _ => .ok "no tags at all".toList

open List

/-- `List.isPrefixOf` agrees with the prefix relation. -/
theorem isPrefixOf_true {l₁ l₂ : List Char} : l₁.isPrefixOf l₂ = true ↔ l₁ <+: l₂ :=
  isPrefixOf_iff_prefix

theorem readlinesAux_flatten : ∀ (s acc : List Char),
    (readlinesAux acc s).flatten = acc.reverse ++ s
  | [], acc => by
    by_cases h : acc = [] <;> simp [readlinesAux, h]
  | c :: rest, acc => by
    by_cases h : c = '\n'
    · subst h
      simp [readlinesAux, readlinesAux_flatten rest []]
    · simpa [readlinesAux, h] using readlinesAux_flatten rest (c :: acc)

/-- Joining the lines read back gives the original content: `readlines`
loses nothing. -/
theorem readlines_flatten (s : List Char) : (readlines s).flatten = s := by
  simpa using readlinesAux_flatten s []

theorem readlines_eq_nil_iff (s : List Char) : readlines s = [] ↔ s = [] := by
  constructor
  · intro h
    have h₂ := readlines_flatten s
    rw [h] at h₂
    exact h₂.symm
  · rintro rfl
    rfl

theorem setLastContent_ne_nil (m : Msg) (l : List Msg) (c : List Char) :
    setLastContent (m :: l) c ≠ [] := by
  cases l <;> simp [setLastContent]

theorem setLastContent_cons (m : Msg) (X : List Msg) (hX : X ≠ []) (c : List Char) :
    setLastContent (m :: X) c = m :: setLastContent X c := by
  cases X with
  | nil => exact absurd rfl hX
  | cons a l => rfl

theorem setLastContent_idem : ∀ (t : List Msg) (c₁ c₂ : List Char),
    setLastContent (setLastContent t c₁) c₂ = setLastContent t c₂
  | [], _, _ => rfl
  | [_], _, _ => rfl
  | m :: m₂ :: rest, c₁, c₂ => by
    rw [setLastContent_cons m (m₂ :: rest) (by simp) c₁,
      setLastContent_cons m (setLastContent (m₂ :: rest) c₁)
        (setLastContent_ne_nil m₂ rest c₁) c₂,
      setLastContent_idem (m₂ :: rest) c₁ c₂,
      setLastContent_cons m (m₂ :: rest) (by simp) c₂]

/-- Writing back the captured content of the trailing message restores the
template exactly. -/
theorem setLastContent_restore : ∀ (t : List Msg) (m : Msg),
    t.getLast? = some m → setLastContent t m.content = t
  | [], m, h => by simp at h
  | [m₀], m, h => by
    simp [List.getLast?] at h
    subst h
    rfl
  | m₀ :: m₁ :: rest, m, h => by
    rw [List.getLast?_cons_cons] at h
    simp only [setLastContent]
    rw [setLastContent_restore (m₁ :: rest) m h]

theorem splitFirst_nil_unfold (pat : List Char) :
    splitFirst pat [] = if pat.isPrefixOf ([] : List Char) then some ([], []) else none := rfl

theorem splitFirst_cons_pos {pat : List Char} {c : Char} {rest : List Char}
    (h : pat.isPrefixOf (c :: rest) = true) :
    splitFirst pat (c :: rest) = some ([], (c :: rest).drop pat.length) := by
  unfold splitFirst
  rw [h]
  rfl

theorem splitFirst_cons_neg_some {pat : List Char} {c : Char} {rest pre' post' : List Char}
    (h : pat.isPrefixOf (c :: rest) = false)
    (hsp : splitFirst pat rest = some (pre', post')) :
    splitFirst pat (c :: rest) = some (c :: pre', post') := by
  unfold splitFirst
  rw [h, hsp]
  rfl

theorem splitFirst_cons_neg_none {pat : List Char} {c : Char} {rest : List Char}
    (h : pat.isPrefixOf (c :: rest) = false)
    (hsp : splitFirst pat rest = none) :
    splitFirst pat (c :: rest) = none := by
  unfold splitFirst
  rw [h, hsp]
  rfl

/-- The decomposition returned by `splitFirst` reassembles the input. -/
theorem splitFirst_sound : ∀ (pat s pre post : List Char),
    splitFirst pat s = some (pre, post) → s = pre ++ pat ++ post
  | pat, [], pre, post => by
    intro he
    rw [splitFirst_nil_unfold] at he
    cases hb : pat.isPrefixOf ([] : List Char) <;> rw [hb] at he
    · simp at he
    · simp only [if_true, Option.some.injEq, Prod.mk.injEq] at he
      obtain ⟨rfl, rfl⟩ := he
      have hp : pat = [] := prefix_nil.mp (isPrefixOf_true.mp hb)
      simp [hp]
  | pat, c :: rest, pre, post => by
    intro he
    cases hb : pat.isPrefixOf (c :: rest)
    · rcases hsp : splitFirst pat rest with _ | ⟨pre', post'⟩
      · rw [splitFirst_cons_neg_none hb hsp] at he
        simp at he
      · rw [splitFirst_cons_neg_some hb hsp] at he
        simp only [Option.some.injEq, Prod.mk.injEq] at he
        obtain ⟨rfl, rfl⟩ := he
        have ih := splitFirst_sound pat rest pre' post' hsp
        simp [ih]
    · rw [splitFirst_cons_pos hb] at he
      simp only [Option.some.injEq, Prod.mk.injEq] at he
      obtain ⟨rfl, rfl⟩ := he
      obtain ⟨t, ht⟩ := isPrefixOf_true.mp hb
      conv_lhs => rw [← ht]
      rw [← ht]
      simp

/-- `splitFirst` finds the first occurrence: every decomposition has a
prefix at least as long as the returned one. -/
theorem splitFirst_minimal : ∀ (pat s pre post : List Char),
    splitFirst pat s = some (pre, post) →
    ∀ pre' post', s = pre' ++ pat ++ post' → pre.length ≤ pre'.length
  | pat, [], pre, post => by
    intro he
    rw [splitFirst_nil_unfold] at he
    cases hb : pat.isPrefixOf ([] : List Char) <;> rw [hb] at he
    · simp at he
    · simp only [if_true, Option.some.injEq, Prod.mk.injEq] at he
      obtain ⟨rfl, rfl⟩ := he
      intro pre' post' _
      simp
  | pat, c :: rest, pre, post => by
    intro he
    cases hb : pat.isPrefixOf (c :: rest)
    · rcases hsp : splitFirst pat rest with _ | ⟨pre₁, post₁⟩
      · rw [splitFirst_cons_neg_none hb hsp] at he
        simp at he
      · rw [splitFirst_cons_neg_some hb hsp] at he
        simp only [Option.some.injEq, Prod.mk.injEq] at he
        obtain ⟨rfl, rfl⟩ := he
        intro pre' post' hs
        cases pre' with
        | nil =>
          exfalso
          have : pat.isPrefixOf (c :: rest) = true :=
            isPrefixOf_true.mpr ⟨post', by simpa using hs.symm⟩
          rw [hb] at this
          exact Bool.false_ne_true this
        | cons c' pre'' =>
          have hc : c = c' ∧ rest = pre'' ++ pat ++ post' := by
            simpa using hs
          have := splitFirst_minimal pat rest pre₁ post₁ hsp pre'' post' hc.2
          simp only [List.length_cons]
          omega
    · rw [splitFirst_cons_pos hb] at he
      simp only [Option.some.injEq, Prod.mk.injEq] at he
      obtain ⟨rfl, rfl⟩ := he
      intro pre' post' _
      simp

/-- When a decomposition exists at all, `splitFirst` finds one. -/
theorem splitFirst_some_of_eq : ∀ (pat pre post s : List Char),
    s = pre ++ pat ++ post → (splitFirst pat s).isSome = true
  | pat, [], post, s => by
    rintro rfl
    have hp : pat.isPrefixOf ([] ++ pat ++ post) = true :=
      isPrefixOf_true.mpr ⟨post, by simp⟩
    simp only [List.nil_append] at hp ⊢
    rcases hs : pat ++ post with _ | ⟨c, r⟩ <;> rw [hs] at hp
    · rw [splitFirst_nil_unfold, hp]
      rfl
    · rw [splitFirst_cons_pos hp]
      rfl
  | pat, c :: pre', post, s => by
    rintro rfl
    have hshape : (c :: pre') ++ pat ++ post = c :: (pre' ++ pat ++ post) := by simp
    rw [hshape]
    cases hb : pat.isPrefixOf (c :: (pre' ++ pat ++ post))
    · have ih := splitFirst_some_of_eq pat pre' post (pre' ++ pat ++ post) rfl
      rcases hsp : splitFirst pat (pre' ++ pat ++ post) with _ | ⟨pre₁, post₁⟩
      · rw [hsp] at ih
        simp at ih
      · rw [splitFirst_cons_neg_some hb hsp]
        rfl
    · rw [splitFirst_cons_pos hb]
      rfl

/-- Suffix of a suffix: among two suffixes of the same list, the shorter is
a suffix of the longer. -/
theorem suffix_of_suffix_le {l₁ l₂ l₃ : List Char} (h₁ : l₁ <:+ l₃) (h₂ : l₂ <:+ l₃)
    (h : l₁.length ≤ l₂.length) : l₁ <:+ l₂ := by
  rw [← reverse_prefix] at h₁ h₂ ⊢
  exact prefix_of_prefix_length_le h₁ h₂ (by simpa using h)

/-- Whatever follows any occurrence of `pat` in `s` is a suffix of the
remainder returned by `splitFirst`. -/
theorem splitFirst_suffix : ∀ (pat s pre₀ rest₀ : List Char),
    splitFirst pat s = some (pre₀, rest₀) →
    ∀ pre t, s = pre ++ pat ++ t → t <:+ rest₀
  | pat, [], pre₀, rest₀ => by
    intro he
    rw [splitFirst_nil_unfold] at he
    cases hb : pat.isPrefixOf ([] : List Char) <;> rw [hb] at he
    · simp at he
    · simp only [if_true, Option.some.injEq, Prod.mk.injEq] at he
      obtain ⟨rfl, rfl⟩ := he
      intro pre t hs
      have ht : t = [] := (List.append_eq_nil.mp hs.symm).2
      simp [ht]
  | pat, c :: rest, pre₀, rest₀ => by
    intro he
    cases hb : pat.isPrefixOf (c :: rest)
    · rcases hsp : splitFirst pat rest with _ | ⟨pre₁, post₁⟩
      · rw [splitFirst_cons_neg_none hb hsp] at he
        simp at he
      · rw [splitFirst_cons_neg_some hb hsp] at he
        simp only [Option.some.injEq, Prod.mk.injEq] at he
        obtain ⟨rfl, rfl⟩ := he
        intro pre t hs
        cases pre with
        | nil =>
          exfalso
          have : pat.isPrefixOf (c :: rest) = true :=
            isPrefixOf_true.mpr ⟨t, by simpa using hs.symm⟩
          rw [hb] at this
          exact Bool.false_ne_true this
        | cons c' pre'' =>
          have hc : c = c' ∧ rest = pre'' ++ pat ++ t := by
            simpa using hs
          exact splitFirst_suffix pat rest pre₁ post₁ hsp pre'' t hc.2
    · rw [splitFirst_cons_pos hb] at he
      simp only [Option.some.injEq, Prod.mk.injEq] at he
      obtain ⟨rfl, rfl⟩ := he
      intro pre t hs
      have hts : t <:+ c :: rest := hs ▸ List.suffix_append (pre ++ pat) t
      have hds : (c :: rest).drop pat.length <:+ c :: rest := List.drop_suffix _ _
      apply suffix_of_suffix_le hts hds
      have hlen := congrArg List.length hs
      simp only [List.length_append, List.length_cons] at hlen
      simp only [List.length_drop, List.length_cons]
      omega

/-- What `reSearch` captures: the input decomposes around the returned
interior, the opening tag occurrence is the leftmost one, and the interior
is the shortest (lazy) one at that occurrence. -/
theorem reSearch_spec (o c s mid : List Char) (h : reSearch o c s = some mid) :
    ∃ pre post, s = pre ++ o ++ mid ++ c ++ post ∧
      (∀ pre₂ rest₂, s = pre₂ ++ o ++ rest₂ → pre.length ≤ pre₂.length) ∧
      (∀ mid₂ post₂, s = pre ++ o ++ mid₂ ++ c ++ post₂ → mid.length ≤ mid₂.length) := by
  unfold reSearch at h
  rcases h₁ : splitFirst o s with _ | ⟨pre₀, rest₀⟩ <;> rw [h₁] at h <;> dsimp only at h
  · simp at h
  · rcases h₂ : splitFirst c rest₀ with _ | ⟨mid₀, post₀⟩ <;> rw [h₂] at h
    · simp at h
    · simp only [Option.some.injEq] at h
      subst h
      have hs := splitFirst_sound o s pre₀ rest₀ h₁
      have hr := splitFirst_sound c rest₀ mid₀ post₀ h₂
      refine ⟨pre₀, post₀, ?_, ?_, ?_⟩
      · rw [hs, hr]
        simp [List.append_assoc]
      · intro pre₂ rest₂ h'
        exact splitFirst_minimal o s pre₀ rest₀ h₁ pre₂ rest₂ h'
      · intro mid₂ post₂ h'
        have h₄ : s = (pre₀ ++ o) ++ rest₀ := hs
        have h₅ : s = (pre₀ ++ o) ++ (mid₂ ++ c ++ post₂) := by
          rw [h']
          simp [List.append_assoc]
        have h₃ : rest₀ = mid₂ ++ c ++ post₂ :=
          List.append_cancel_left (h₄.symm.trans h₅)
        exact splitFirst_minimal c rest₀ mid₀ post₀ h₂ mid₂ post₂ h₃

/-- When a full tagged span exists anywhere in the input, `reSearch`
succeeds (the regex search cannot miss it). -/
theorem reSearch_isSome_of_span (o c s pre mid post : List Char)
    (h : s = pre ++ o ++ mid ++ c ++ post) : (reSearch o c s).isSome = true := by
  have h₁ : (splitFirst o s).isSome = true := by
    apply splitFirst_some_of_eq o pre (mid ++ c ++ post) s
    rw [h]
    simp [List.append_assoc]
  rcases hsp : splitFirst o s with _ | ⟨pre₀, rest₀⟩
  · rw [hsp] at h₁
    simp at h₁
  · have hsuf : (mid ++ c ++ post) <:+ rest₀ := by
      apply splitFirst_suffix o s pre₀ rest₀ hsp pre (mid ++ c ++ post)
      rw [h]
      simp [List.append_assoc]
    obtain ⟨w, hw⟩ := hsuf
    have h₂ : (splitFirst c rest₀).isSome = true := by
      apply splitFirst_some_of_eq c (w ++ mid) post rest₀
      rw [← hw]
      simp [List.append_assoc]
    unfold reSearch
    rw [hsp]
    dsimp only
    rcases h₃ : splitFirst c rest₀ with _ | ⟨mid₀, post₀⟩
    · rw [h₃] at h₂
      simp at h₂
    · rfl

/-- `reSearch` fails exactly when no full span exists. -/
theorem reSearch_none_no_span (o c s : List Char) (h : reSearch o c s = none) :
    ¬ ∃ pre mid post, s = pre ++ o ++ mid ++ c ++ post := by
  rintro ⟨pre, mid, post, hs⟩
  have := reSearch_isSome_of_span o c s pre mid post hs
  rw [h] at this
  simp at this

theorem occursB_true_iff : ∀ (pat s : List Char), occursB pat s = true ↔ pat <:+: s
  | pat, [] => by
    simp [occursB, List.isEmpty_iff]
  | pat, c :: rest => by
    rw [show occursB pat (c :: rest) = (pat.isPrefixOf (c :: rest) || occursB pat rest)
      from rfl]
    rw [Bool.or_eq_true, isPrefixOf_true, occursB_true_iff pat rest, infix_cons_iff]

/-- A prefix of an append decomposes: it is a prefix of the left part, or
it extends the whole left part into the right part. -/
theorem prefixAppendSplit : ∀ {x : List Char} {l y : List Char}, l <+: x ++ y →
    l <+: x ∨ (x <+: l ∧ l.drop x.length <+: y) := by
  intro x
  induction x with
  | nil =>
    intro l y h
    exact Or.inr ⟨ nil_prefix, by simpa using h⟩
  | cons a x' ih =>
    intro l y h
    cases l with
    | nil => exact Or.inl nil_prefix
    | cons b l' =>
      rw [List.cons_append, cons_prefix_cons] at h
      obtain ⟨rfl, h'⟩ := h
      rcases ih h' with h₂ | ⟨h₂, h₃⟩
      · exact Or.inl (cons_prefix_cons.mpr ⟨rfl, h₂⟩)
      · exact Or.inr ⟨cons_prefix_cons.mpr ⟨rfl, h₂⟩, by simpa using h₃⟩

/-- An infix of an append is an infix of one side or straddles the
boundary with a non-empty suffix of the left and prefix of the right. -/
theorem infixAppendSplit : ∀ {x : List Char} {l y : List Char}, l <:+: x ++ y →
    l <:+: x ∨ l <:+: y ∨
      ∃ p q, p ++ q = l ∧ p ≠ [] ∧ q ≠ [] ∧ p <:+ x ∧ q <+: y := by
  intro x
  induction x with
  | nil =>
    intro l y h
    exact Or.inr (Or.inl (by simpa using h))
  | cons a x' ih =>
    intro l y h
    rw [List.cons_append, infix_cons_iff] at h
    rcases h with h | h
    · rw [← List.cons_append] at h
      rcases prefixAppendSplit h with h₂ | ⟨h₂, h₃⟩
      · exact Or.inl h₂.isInfix
      · obtain ⟨r, hr⟩ := h₂
        have hrdrop : l.drop (a :: x').length = r := by
          rw [← hr]
          simp
        rw [hrdrop] at h₃
        cases r with
        | nil =>
          left
          rw [← hr]
          simp
        | cons d r' =>
          right; right
          exact ⟨a :: x', d :: r', hr, by simp, by simp, suffix_refl _, h₃⟩
    · rcases ih h with h₂ | h₂ | ⟨p, q, hpq, hp, hq, hsuf, hpre⟩
      · exact Or.inl (infix_cons h₂)
      · exact Or.inr (Or.inl h₂)
      · refine Or.inr (Or.inr ⟨p, q, hpq, hp, hq, ?_, hpre⟩)
        obtain ⟨t, ht⟩ := hsuf
        exact ⟨a :: t, by simp [ht]⟩

/-- A non-empty prefix of a list contains the list's head. -/
theorem prefixHeadMem {q : List Char} {c : Char} {t : List Char}
    (h : q <+: c :: t) (hq : q ≠ []) : c ∈ q := by
  cases q with
  | nil => exact absurd rfl hq
  | cons d q' =>
    rw [cons_prefix_cons] at h
    rw [h.1]
    exact List.mem_cons_self _ _

/-- A non-empty suffix of a list contains the list's last element. -/
theorem suffixLastMem {p z : List Char} {c : Char}
    (h : p <:+ z) (hp : p ≠ []) (hz : z.getLast? = some c) : c ∈ p := by
  obtain ⟨t, ht⟩ := h
  rw [← ht, getLast?_append_of_ne_nil t hp] at hz
  obtain ⟨hne, rfl⟩ := List.mem_getLast?_eq_getLast hz
  exact getLast_mem hne

theorem inspect_foldl : ∀ (files : List (List Char × List Char)) (acc : List Char),
    files.foldl inspectStep acc = acc ++ (files.map inspectBlock).flatten
  | [], acc => by simp
  | pc :: fs, acc => by
    have ih := inspect_foldl fs (inspectStep acc pc)
    simp only [List.foldl_cons, List.map_cons, List.flatten_cons]
    rw [ih]
    unfold inspectStep inspectBlock
    by_cases h : (readlines pc.2).isEmpty <;> simp [h, List.append_assoc]

theorem isfile_fsWrite_self (fs : FS) (p v : List Char) :
    isfile (fsWrite fs p v) p = true := by
  simp [isfile, fsWrite, List.lookup]

theorem lookup_fsWrite_self (fs : FS) (p v : List Char) :
    List.lookup p (fsWrite fs p v) = some v := by
  simp [fsWrite, List.lookup]

theorem lookup_fsWrite_ne (fs : FS) (p p' v : List Char) (h : p' ≠ p) :
    List.lookup p (fsWrite fs p' v) = List.lookup p fs := by
  unfold fsWrite
  have hb : (p == p') = false := beq_eq_false_iff_ne.mpr (Ne.symm h)
  simp [List.lookup, hb]

theorem isfile_fsWrite_of {fs : FS} {p : List Char} (p' v : List Char)
    (h : isfile fs p = true) : isfile (fsWrite fs p' v) p = true := by
  by_cases hp : p' = p
  · subst hp
    exact isfile_fsWrite_self fs p' v
  · unfold isfile
    rw [lookup_fsWrite_ne fs p p' v hp]
    exact h

/-- The entry guard (`_llm.py` line 132): primary output present and no
prompt-saving requested means the unit is skipped untouched. -/
theorem processUnit_skip (chat : List Msg → Except (List Char) (List Char))
    (neural : Option NeuralModel) (st : RunSt) (u : Unit')
    (h : isfile st.fs u.csource = true) :
    processUnit chat neural false st u
      = .ok { st with statuses := st.statuses ++ [.skipped] } := by
  unfold processUnit
  rw [h]
  rfl

/-- Full description of a processed unit with a configured backend and a
successful generation call. -/
theorem processUnit_run (chat : List Msg → Except (List Char) (List Char))
    (nm : NeuralModel) (sp : Bool) (st : RunSt) (u : Unit') (lastM : Msg)
    (src result : List Char)
    (hcond : (!(isfile st.fs u.csource) || sp) = true)
    (hL : st.tmpl.getLast? = some lastM)
    (hF : List.lookup u.fsource st.fs = some src)
    (hC : chat (workingTemplate st u lastM src) = .ok result) :
    processUnit chat (some nm) sp st u
      = .ok (runResult st u sp (workingTemplate st u lastM src) result) := by
  unfold workingTemplate at hC
  unfold processUnit
  rw [hcond, hL, hF]
  dsimp only
  rw [hC]
  dsimp only
  unfold runResult workingTemplate
  rw [setLastContent_idem, setLastContent_restore st.tmpl lastM hL]
  rfl

/-- Exhaustive case description of a successful `processUnit` step. -/
theorem processUnit_ok_cases {chat : List Msg → Except (List Char) (List Char)}
    {neural : Option NeuralModel} {sp : Bool} {st : RunSt} {u : Unit'} {st' : RunSt}
    (h : processUnit chat neural sp st u = .ok st') :
    (st' = { st with statuses := st.statuses ++ [.skipped] }
        ∧ isfile st.fs u.csource = true ∧ sp = false)
    ∨ (∃ lastM src,
        st.tmpl.getLast? = some lastM
        ∧ List.lookup u.fsource st.fs = some src
        ∧ ((∃ nm result, neural = some nm
              ∧ chat (workingTemplate st u lastM src) = .ok result
              ∧ st' = runResult st u sp (workingTemplate st u lastM src) result)
           ∨ (neural = none
              ∧ st' = noBackendResult st u sp (workingTemplate st u lastM src)))) := by
  unfold processUnit at h
  cases hcond : (!(isfile st.fs u.csource) || sp) <;> rw [hcond] at h
  · rw [if_neg Bool.false_ne_true] at h
    left
    simp only [Bool.or_eq_false_iff, Bool.not_eq_false'] at hcond
    simp only [Except.ok.injEq] at h
    exact ⟨h.symm, hcond.1, hcond.2⟩
  · rw [if_pos rfl] at h
    right
    rcases hL : st.tmpl.getLast? with _ | lastM <;> rw [hL] at h <;> dsimp only at h
    · simp at h
    · rcases hF : List.lookup u.fsource st.fs with _ | src <;> rw [hF] at h <;>
        dsimp only at h
      · simp at h
      · refine ⟨lastM, src, rfl, rfl, ?_⟩
        cases neural with
        | none =>
          right
          simp only [Except.ok.injEq] at h
          refine ⟨rfl, ?_⟩
          rw [← h]
          unfold noBackendResult workingTemplate
          rw [setLastContent_idem, setLastContent_restore st.tmpl lastM hL]
        | some nm =>
          left
          rcases hC : chat (setLastContent st.tmpl
              (buildContent lastM.content src (List.lookup u.cdraft st.fs))) with e | result <;>
            rw [hC] at h <;> dsimp only at h
          · simp at h
          · simp only [Except.ok.injEq] at h
            refine ⟨nm, result, rfl, hC, ?_⟩
            rw [← h]
            unfold runResult workingTemplate
            rw [setLastContent_idem, setLastContent_restore st.tmpl lastM hL]

/-- A successful unit step leaves the template exactly as it found it
(capture + restore). -/
theorem processUnit_tmpl_eq {chat : List Msg → Except (List Char) (List Char)}
    {neural : Option NeuralModel} {sp : Bool} {st : RunSt} {u : Unit'} {st' : RunSt}
    (h : processUnit chat neural sp st u = .ok st') : st'.tmpl = st.tmpl := by
  rcases processUnit_ok_cases h with ⟨rfl, -, -⟩ | ⟨lastM, src, -, -, hcase⟩
  · rfl
  · rcases hcase with ⟨nm, result, -, -, rfl⟩ | ⟨-, rfl⟩ <;> rfl

theorem processUnit_preserves_isfile {chat : List Msg → Except (List Char) (List Char)}
    {neural : Option NeuralModel} {sp : Bool} {st : RunSt} {u : Unit'} {st' : RunSt}
    (h : processUnit chat neural sp st u = .ok st') (p : List Char)
    (hp : isfile st.fs p = true) : isfile st'.fs p = true := by
  have hbase : ∀ w : List Msg,
      isfile (if sp then fsWrite st.fs u.promptfile (jsonDump w) else st.fs) p = true := by
    intro w
    cases sp
    · simpa using hp
    · simpa using isfile_fsWrite_of u.promptfile (jsonDump w) hp
  rcases processUnit_ok_cases h with ⟨rfl, -, -⟩ | ⟨lastM, src, -, -, hcase⟩
  · exact hp
  · rcases hcase with ⟨nm, result, -, -, rfl⟩ | ⟨-, rfl⟩
    · exact isfile_fsWrite_of _ _ (isfile_fsWrite_of _ _ (hbase _))
    · exact hbase _

/-- With a backend configured, a successful unit step ends with the primary
output present on disk (written now, or already there on the skip path). -/
theorem processUnit_some_csource {chat : List Msg → Except (List Char) (List Char)}
    {nm : NeuralModel} {sp : Bool} {st : RunSt} {u : Unit'} {st' : RunSt}
    (h : processUnit chat (some nm) sp st u = .ok st') :
    isfile st'.fs u.csource = true := by
  rcases processUnit_ok_cases h with ⟨rfl, hf, -⟩ | ⟨lastM, src, -, -, hcase⟩
  · exact hf
  · rcases hcase with ⟨nm', result, -, -, rfl⟩ | ⟨hne, -⟩
    · exact isfile_fsWrite_of _ _ (isfile_fsWrite_self _ _ _)
    · simp at hne

theorem processUnits_ok_tmpl : ∀ (chat : List Msg → Except (List Char) (List Char))
    (neural : Option NeuralModel) (sp : Bool) (us : List Unit') (st st' : RunSt),
    processUnits chat neural sp st us = .ok st' → st'.tmpl = st.tmpl
  | chat, neural, sp, [], st, st' => by
    intro h
    simp only [processUnits, Except.ok.injEq] at h
    rw [← h]
  | chat, neural, sp, u :: us, st, st' => by
    intro h
    unfold processUnits at h
    rcases hp : processUnit chat neural sp st u with e | st₁ <;> rw [hp] at h <;>
      dsimp only at h
    · simp at h
    · exact (processUnits_ok_tmpl chat neural sp us st₁ st' h).trans
        (processUnit_tmpl_eq hp)

theorem processUnits_preserves_isfile :
    ∀ (chat : List Msg → Except (List Char) (List Char))
    (neural : Option NeuralModel) (sp : Bool) (us : List Unit') (st st' : RunSt),
    processUnits chat neural sp st us = .ok st' →
    ∀ p, isfile st.fs p = true → isfile st'.fs p = true
  | chat, neural, sp, [], st, st' => by
    intro h p hp
    simp only [processUnits, Except.ok.injEq] at h
    rw [← h]
    exact hp
  | chat, neural, sp, u :: us, st, st' => by
    intro h p hp
    unfold processUnits at h
    rcases hq : processUnit chat neural sp st u with e | st₁ <;> rw [hq] at h <;>
      dsimp only at h
    · simp at h
    · exact processUnits_preserves_isfile chat neural sp us st₁ st' h p
        (processUnit_preserves_isfile hq p hp)

/-- After a successful batch run with a backend configured, every unit's
primary output exists on disk. -/
theorem processUnits_some_csource :
    ∀ (chat : List Msg → Except (List Char) (List Char)) (nm : NeuralModel)
    (sp : Bool) (us : List Unit') (st st' : RunSt),
    processUnits chat (some nm) sp st us = .ok st' →
    ∀ u ∈ us, isfile st'.fs u.csource = true
  | chat, nm, sp, [], st, st' => by
    intro h u hu
    simp at hu
  | chat, nm, sp, u :: us, st, st' => by
    intro h v hv
    unfold processUnits at h
    rcases hq : processUnit chat (some nm) sp st u with e | st₁ <;> rw [hq] at h <;>
      dsimp only at h
    · simp at h
    · rcases List.mem_cons.mp hv with rfl | hv'
      · exact processUnits_preserves_isfile chat (some nm) sp us st₁ st' h v.csource
          (processUnit_some_csource hq)
      · exact processUnits_some_csource chat nm sp us st₁ st' h v hv'

/-- When every primary output already exists and prompt-saving is off, the
whole batch is a no-op apart from marking each unit skipped. -/
theorem processUnits_skip_all :
    ∀ (chat : List Msg → Except (List Char) (List Char))
    (neural : Option NeuralModel) (us : List Unit') (st : RunSt),
    (∀ u ∈ us, isfile st.fs u.csource = true) →
    processUnits chat neural false st us
      = .ok { st with statuses := st.statuses ++ us.map (fun _ => UStatus.skipped) }
  | chat, neural, [], st => by
    intro _
    simp [processUnits]
  | chat, neural, u :: us, st => by
    intro h
    unfold processUnits
    rw [processUnit_skip chat neural st u (h u (List.mem_cons_self u us))]
    dsimp only
    rw [processUnits_skip_all chat neural us { st with statuses := st.statuses ++ [.skipped] }
      (fun v hv => h v (List.mem_cons_of_mem u hv))]
    simp

theorem seenTemplates_eq :
    ∀ (chat : List Msg → Except (List Char) (List Char))
    (neural : Option NeuralModel) (sp : Bool) (us : List Unit') (st : RunSt)
    (t : List Msg), t ∈ seenTemplates chat neural sp st us → t = st.tmpl
  | chat, neural, sp, [], st, t => by
    intro ht
    simp [seenTemplates] at ht
  | chat, neural, sp, u :: us, st, t => by
    intro ht
    unfold seenTemplates at ht
    rcases List.mem_cons.mp ht with rfl | ht'
    · rfl
    · rcases hq : processUnit chat neural sp st u with e | st₁ <;> rw [hq] at ht'
      · simp at ht'
      · exact (seenTemplates_eq chat neural sp us st₁ t ht').trans
          (processUnit_tmpl_eq hq)

/-- C1 (amended): a line is dropped by the comment filter iff, after
trimming and lower-casing, it starts with one of the markers `"c"`, `"!!"`,
`"!"` and does not start with `"complex"`; consequently, for the input lines
`["C note\n", "complex z\n", "! more\n", "code(1)\n"]` the ingested source
block equals `"complex z\n"` — the line `"code(1)\n"` is also dropped, since
it starts with `"c"` and not with `"complex"`. -/
theorem c1_comment_filter :
    (∀ line : List Char, is_comment line = true ↔ specDroppedLine line)
    ∧ (∀ content : List Char,
        filterSource content
          = ((readlines content).filter (fun l => !(is_comment l))).flatten)
    ∧ filterSource "C note\ncomplex z\n! more\ncode(1)\n".toList
        = "complex z\n".toList := by
  refine ⟨?_, fun content => rfl, by decide⟩
  intro line
  unfold is_comment specDroppedLine
  simp only [Bool.and_eq_true, Bool.or_eq_true, Bool.not_eq_true', isPrefixOf_true]
  rw [← Bool.not_eq_true]
  rw [isPrefixOf_true]
  tauto

/-- C1 counterexample: the spec's concrete example is wrong — the ingested
block for those four lines is not `"complex z\ncode(1)\n"` (the line
`"code(1)\n"` is dropped as a comment). -/
theorem c1_counterexample :
    filterSource "C note\ncomplex z\n! more\ncode(1)\n".toList
      ≠ "complex z\ncode(1)\n".toList := by
  decide

/-- C3: if a full primary `<csource>` span is present, the primary artifact
is the captured interior of the first such span (leftmost opening tag, lazy
interior); if no span is present, the primary artifact is the entire raw
response; extraction is a total function. The spec's concrete dual-tag
example evaluates as stated (with the fixed tag names `csource`/`fsource`). -/
theorem c3_primary_extraction :
    (∀ r pre mid post : List Char,
        r = pre ++ "<csource>".toList ++ mid ++ "</csource>".toList ++ post →
        ∃ pre' mid' post', csource_search r = some mid' ∧ primaryText r = mid'
          ∧ r = pre' ++ "<csource>".toList ++ mid' ++ "</csource>".toList ++ post'
          ∧ (∀ pre₂ rest₂, r = pre₂ ++ "<csource>".toList ++ rest₂ →
              pre'.length ≤ pre₂.length)
          ∧ (∀ mid₂ post₂,
              r = pre' ++ "<csource>".toList ++ mid₂ ++ "</csource>".toList ++ post₂ →
              mid'.length ≤ mid₂.length))
    ∧ (∀ r : List Char,
        (¬ ∃ pre mid post,
            r = pre ++ "<csource>".toList ++ mid ++ "</csource>".toList ++ post) →
        csource_search r = none ∧ primaryText r = r)
    ∧ primaryText "pre <csource>IMPL</csource> mid <fsource>IFACE</fsource> post".toList
        = "IMPL".toList
    ∧ secondaryText "pre <csource>IMPL</csource> mid <fsource>IFACE</fsource> post".toList
        = some "IFACE".toList := by
  refine ⟨?_, ?_, by decide, by decide⟩
  · intro r pre mid post hspan
    have hsome := reSearch_isSome_of_span "<csource>".toList "</csource>".toList r
      pre mid post hspan
    rcases hre : reSearch "<csource>".toList "</csource>".toList r with _ | mid'
    · rw [hre] at hsome
      simp at hsome
    · have hre' : csource_search r = some mid' := hre
      obtain ⟨pre', post', hdec, hpremin, hmidmin⟩ :=
        reSearch_spec "<csource>".toList "</csource>".toList r mid' hre
      refine ⟨pre', mid', post', hre', ?_, hdec, hpremin, hmidmin⟩
      unfold primaryText
      rw [hre']
  · intro r hno
    rcases hre : reSearch "<csource>".toList "</csource>".toList r with _ | mid'
    · have hre' : csource_search r = none := hre
      refine ⟨hre', ?_⟩
      unfold primaryText
      rw [hre']
    · exfalso
      obtain ⟨pre', post', hdec, -, -⟩ :=
        reSearch_spec "<csource>".toList "</csource>".toList r mid' hre
      exact hno ⟨pre', mid', post', hdec⟩

/-- C3 witness: on a tag-free response the extraction falls back to the
whole response. -/
theorem c3_primary_extraction_witness :
    csource_search "no tags at all".toList = none ∧
      primaryText "no tags at all".toList = "no tags at all".toList :=
  c3_primary_extraction.2.1 "no tags at all".toList
    (reSearch_none_no_span "<csource>".toList "</csource>".toList
      "no tags at all".toList (by decide))

/-- C4 (amended): for a non-empty response, the primary text is the whole
response (hence non-empty) when the primary tag is absent, and the captured
interior — which may be empty — when it is present. -/
theorem c4_primary_nonempty (r : List Char) (hr : r ≠ []) :
    (csource_search r = none → primaryText r = r ∧ primaryText r ≠ [])
    ∧ (∀ s, csource_search r = some s → primaryText r = s) := by
  constructor
  · intro hn
    unfold primaryText
    rw [hn]
    exact ⟨rfl, hr⟩
  · intro s hs
    unfold primaryText
    rw [hs]

/-- C4 witness. -/
theorem c4_primary_nonempty_witness :
    primaryText "abc".toList = "abc".toList ∧ primaryText "abc".toList ≠ [] :=
  (c4_primary_nonempty "abc".toList (by decide)).1 (by decide)

/-- C4 counterexample: `"<csource></csource>"` is a non-empty response whose
extracted primary text is the empty string, refuting the claimed invariant. -/
theorem c4_counterexample :
    "<csource></csource>".toList ≠ ([] : List Char)
    ∧ primaryText "<csource></csource>".toList = [] := by
  exact ⟨by decide, by decide⟩

/-- C2 (amended): when the generated response contains no secondary
`<fsource>` span, the secondary output file is still opened for writing —
created or truncated — and ends up with empty content; only the interior
write is skipped. -/
theorem c2_secondary_truncated
    (chat : List Msg → Except (List Char) (List Char)) (nm : NeuralModel) (sp : Bool)
    (st : RunSt) (u : Unit') (lastM : Msg) (src result : List Char)
    (hcond : (!(isfile st.fs u.csource) || sp) = true)
    (hL : st.tmpl.getLast? = some lastM)
    (hF : List.lookup u.fsource st.fs = some src)
    (hC : chat (workingTemplate st u lastM src) = .ok result)
    (hsec : fsource_search result = none) :
    ∃ st', processUnit chat (some nm) sp st u = .ok st'
      ∧ List.lookup u.finterface st'.fs = some []
      ∧ (u.finterface, ([] : List Char)) ∈ st'.writes := by
  have hsec' : secondaryText result = none := hsec
  refine ⟨runResult st u sp (workingTemplate st u lastM src) result,
    processUnit_run chat nm sp st u lastM src result hcond hL hF hC, ?_, ?_⟩
  · unfold runResult
    dsimp only
    rw [hsec']
    exact lookup_fsWrite_self _ _ _
  · unfold runResult
    dsimp only
    rw [hsec']
    simp

/-- C2 witness. -/
theorem c2_secondary_truncated_witness :
    ∃ st', processUnit exChat (some NeuralModel.openai_) false exSt exUnit = .ok st'
      ∧ List.lookup exUnit.finterface st'.fs = some []
      ∧ (exUnit.finterface, ([] : List Char)) ∈ st'.writes :=
  c2_secondary_truncated exChat NeuralModel.openai_ false exSt exUnit
    { role := "user".toList, content := "SEED".toList } "x = 1\n".toList
    "no tags at all".toList (by decide) (by decide) (by decide) rfl (by decide)

/-- C2 counterexample: the secondary output file held `"OLD"` before the
unit ran and a response without the secondary tag was generated; afterwards
the file's content is the empty string — it was truncated, not left
untouched. -/
theorem c2_counterexample :
    List.lookup exUnit.finterface exSt.fs = some "OLD".toList
    ∧ secondaryText "no tags at all".toList = none
    ∧ (processUnit exChat (some NeuralModel.openai_) false exSt exUnit).toOption.map
        (fun st' => List.lookup exUnit.finterface st'.fs) = some (some []) := by
  refine ⟨by decide, by decide, by decide⟩

/-- C5 (amended): for every non-empty backend selector — the only selectors
that pass Python's `if model:` truthiness test — an existing path yields the
local checkpoint backend; otherwise the case-insensitive literal `"openai"`
yields the hosted backend; any other non-empty selector makes the whole run
fail, before any unit is processed, with an error naming the selector. The
empty selector string is falsy: it is treated exactly like no selector at
all — no backend is constructed and no error is raised. -/
theorem c5_backend_selector (pathExists : List Char → Bool)
    (chat : List Msg → Except (List Char) (List Char)) (units : List Unit')
    (template : List Msg) (fs : FS) (m : List Char) (sp : Bool) :
    (pathExists m = true → selectModel pathExists m = .ok (.tf m))
    ∧ (pathExists m = false → pyLower m = "openai".toList →
        selectModel pathExists m = .ok .openai_)
    ∧ (m ≠ [] → pathExists m = false → pyLower m ≠ "openai".toList →
        prompt_translate pathExists chat units template fs (some m) sp
          = .error (m ++ " not available".toList))
    ∧ prompt_translate pathExists chat units template fs (some []) sp
        = prompt_translate pathExists chat units template fs none sp := by
  refine ⟨?_, ?_, ?_, rfl⟩
  · intro h
    unfold selectModel
    rw [h]
    rfl
  · intro h hlo
    unfold selectModel
    rw [h, if_neg Bool.false_ne_true, if_pos hlo]
  · intro hm h hlo
    have hsel : selectModel pathExists m = .error (m ++ " not available".toList) := by
      unfold selectModel
      rw [h, if_neg Bool.false_ne_true, if_neg hlo]
    unfold prompt_translate
    dsimp only
    rw [if_neg hm, hsel]

/-- C5 witness: an unrecognized non-empty selector aborts the run with the
error naming it. -/
theorem c5_backend_selector_witness :
    prompt_translate (fun _ => false) exChat [exUnit] exTemplate exFS
        (some "llama".toList) false
      = .error ("llama".toList ++ " not available".toList) :=
  (c5_backend_selector (fun _ => false) exChat [exUnit] exTemplate exFS
    "llama".toList false).2.2.1 (by decide) rfl (by decide)

/-- C5 counterexample: the empty selector string neither resolves to a path
nor equals `"openai"`, yet the run does not raise a configuration error —
Python's `if model:` is false for `""`, so backend construction is skipped
and the unit is processed in no-backend mode. -/
theorem c5_counterexample :
    (fun _ : List Char => false) ([] : List Char) = false
    ∧ pyLower ([] : List Char) ≠ "openai".toList
    ∧ prompt_translate (fun _ => false) exChat [exUnit] exTemplate exFS
        (some []) false
      = .ok ⟨exFS, exTemplate, [], [], [UStatus.processed]⟩ := by
  refine ⟨rfl, by decide, ?_⟩
  rfl

/-- C6: the trailing seed content is captured before injection and restored
before the next unit begins — every successfully processed (or skipped) unit
leaves the template exactly as it found it, and hence the template observed
at the start of every unit that begins (the run aborts on error, so no unit
begins after a failure) equals the original template. -/
theorem c6_template_restoration :
    (∀ (chat : List Msg → Except (List Char) (List Char))
        (neural : Option NeuralModel) (sp : Bool) (st : RunSt) (u : Unit')
        (st' : RunSt),
        processUnit chat neural sp st u = .ok st' → st'.tmpl = st.tmpl)
    ∧ (∀ (chat : List Msg → Except (List Char) (List Char))
        (neural : Option NeuralModel) (sp : Bool) (us : List Unit') (st : RunSt)
        (t : List Msg),
        t ∈ seenTemplates chat neural sp st us → t = st.tmpl) :=
  ⟨fun _ _ _ _ _ _ h => processUnit_tmpl_eq h,
   fun chat neural sp us st t ht => seenTemplates_eq chat neural sp us st t ht⟩

/-- C6 witness: in a two-unit run whose first unit injects source content,
the template seen at the start of each unit is the original seed template. -/
theorem c6_template_restoration_witness : exTemplate = exSt.tmpl :=
  c6_template_restoration.2 exChat (some NeuralModel.openai_) false
    [exUnit, exUnit] exSt exTemplate (by decide)

/-- C7: with prompt-saving off, a batch over units whose primary outputs all
exist is a pure skip — the state is returned unchanged except that every
unit resolves to `skipped` (no writes, no backend calls, no source reads);
and a successful batch run with a backend leaves every unit's primary
output on disk, so a re-run after a successful run skips every unit. -/
theorem c7_idempotent_rerun :
    (∀ (chat : List Msg → Except (List Char) (List Char))
        (neural : Option NeuralModel) (us : List Unit') (st : RunSt),
        (∀ u ∈ us, isfile st.fs u.csource = true) →
        processUnits chat neural false st us
          = .ok { st with statuses := st.statuses ++ us.map (fun _ => UStatus.skipped) })
    ∧ (∀ (chat : List Msg → Except (List Char) (List Char)) (nm : NeuralModel)
        (sp : Bool) (us : List Unit') (st st' : RunSt),
        processUnits chat (some nm) sp st us = .ok st' →
        ∀ u ∈ us, isfile st'.fs u.csource = true) :=
  ⟨fun chat neural us st h => processUnits_skip_all chat neural us st h,
   fun chat nm sp us st st' h => processUnits_some_csource chat nm sp us st st' h⟩

/-- C7 witness: a batch over a unit whose primary output exists — and whose
source file is absent, showing it is not read — performs no writes, no
backend calls, and resolves the unit to `skipped`. -/
theorem c7_idempotent_rerun_witness :
    processUnits exChat none false
        ⟨[("a.c".toList, "done".toList)], exTemplate, [], [], []⟩ [exUnit]
      = .ok ⟨[("a.c".toList, "done".toList)], exTemplate, [], [], [UStatus.skipped]⟩ :=
  c7_idempotent_rerun.1 exChat none [exUnit]
    ⟨[("a.c".toList, "done".toList)], exTemplate, [], [], []⟩ (by decide)

set_option maxRecDepth 4096 in
/-- C8 (amended): the inspection prompt is one user message consisting, in
order, of the fixed preamble, one block of the exact form
`"\n<PATH>\n" ++ content ++ "</PATH>\n"` per non-empty input file, and one
`"\n<query>\n" ++ query ++ "\n</query>\n"` block; in particular the spec's
two-file example produces exactly those blocks (each with a newline after
the opening tag). -/
theorem c8_inspection_prompt :
    (∀ (files : List (List Char × List Char)) (query : List Char),
        prompt_inspect_template files query
          = [{ role := "user".toList, content := inspect_content files query }])
    ∧ (∀ (files : List (List Char × List Char)) (query : List Char),
        inspect_content files query
          = inspect_preamble ++ (files.map inspectBlock).flatten
            ++ ("\n".toList ++ "<query>\n".toList ++ query ++ "\n</query>\n".toList))
    ∧ (∀ p c : List Char, c ≠ [] →
        inspectBlock (p, c)
          = "\n".toList ++ "<".toList ++ p ++ ">\n".toList ++ c ++ "</".toList ++ p
            ++ ">\n".toList)
    ∧ inspect_content
        [("a.f".toList, "sub a\nend\n".toList), ("b.f".toList, "sub b\nend\n".toList)]
        "List all subroutines".toList
      = inspect_preamble
        ++ "\n<a.f>\nsub a\nend\n</a.f>\n".toList
        ++ "\n<b.f>\nsub b\nend\n</b.f>\n".toList
        ++ "\n<query>\nList all subroutines\n</query>\n".toList := by
  refine ⟨fun files query => rfl, ?_, ?_, ?_⟩
  · intro files query
    unfold inspect_content
    rw [inspect_foldl]
    simp [List.append_assoc]
  · intro p c hc
    have hrl : readlines c ≠ [] := fun hnil => hc ((readlines_eq_nil_iff c).mp hnil)
    have hne : (readlines c).isEmpty ≠ true := by
      cases hx : readlines c with
      | nil => exact absurd hx hrl
      | cons a l => simp
    unfold inspectBlock
    rw [if_neg hne, readlines_flatten]
  · have h := inspect_foldl
      [("a.f".toList, "sub a\nend\n".toList), ("b.f".toList, "sub b\nend\n".toList)]
      inspect_preamble
    unfold inspect_content
    rw [h]
    have hblocks : ([("a.f".toList, "sub a\nend\n".toList),
        ("b.f".toList, "sub b\nend\n".toList)].map inspectBlock).flatten
        = "\n<a.f>\nsub a\nend\n</a.f>\n".toList
          ++ "\n<b.f>\nsub b\nend\n</b.f>\n".toList := by
      decide
    rw [hblocks]
    simp [List.append_assoc]

/-- C8 witness: one file block, evaluated concretely. -/
theorem c8_inspection_prompt_witness :
    inspectBlock ("a.f".toList, "sub a\nend\n".toList)
      = "\n".toList ++ "<".toList ++ "a.f".toList ++ ">\n".toList
        ++ "sub a\nend\n".toList ++ "</".toList ++ "a.f".toList ++ ">\n".toList :=
  c8_inspection_prompt.2.2.1 "a.f".toList "sub a\nend\n".toList (by decide)

set_option maxRecDepth 8192 in
/-- C8 counterexample: the aggregated prompt of the spec's example does not
contain the block `"<a.f>sub a\nend\n</a.f>"` — the code inserts a newline
after the opening tag, so the claimed exact block never occurs. -/
theorem c8_counterexample :
    ¬ "<a.f>sub a\nend\n</a.f>".toList <:+:
      inspect_content
        [("a.f".toList, "sub a\nend\n".toList), ("b.f".toList, "sub b\nend\n".toList)]
        "List all subroutines".toList := by
  rw [← occursB_true_iff]
  decide

/-- C9 (amended): a non-empty draft file is appended whole, unfiltered, as a
`<draft>` block immediately after the source block; a missing draft file —
and likewise an existing empty one — is a silent no-op appending nothing;
and with no draft file the built prompt contains no `"<draft>"` anywhere,
provided neither the seed nor the filtered source text contains one. -/
theorem c9_draft_injection :
    (∀ cached src d : List Char, d ≠ [] →
        buildContent cached src (some d)
          = sourceInject cached src ++ "\n\n".toList ++ "<draft>\n".toList ++ d
            ++ "</draft>".toList)
    ∧ (∀ cached src : List Char,
        buildContent cached src none = sourceInject cached src
        ∧ buildContent cached src (some []) = sourceInject cached src)
    ∧ (∀ cached src : List Char,
        ¬ "<draft>".toList <:+: cached →
        ¬ "<draft>".toList <:+: filterSource src →
        ¬ "<draft>".toList <:+: buildContent cached src none) := by
  refine ⟨?_, fun cached src => ⟨rfl, rfl⟩, ?_⟩
  · intro cached src d hd
    have hrl : readlines d ≠ [] := fun hnil => hd ((readlines_eq_nil_iff d).mp hnil)
    have hne : (readlines d).isEmpty ≠ true := by
      cases hx : readlines d with
      | nil => exact absurd hx hrl
      | cons a l => simp
    unfold buildContent draftInjectContent
    dsimp only
    rw [if_neg hne, readlines_flatten]
  · intro cached src h₁ h₂ h
    unfold buildContent sourceInject at h
    dsimp only at h
    by_cases hsc : (source_code src).isEmpty
    · rw [if_pos hsc] at h
      exact h₁ h
    · rw [if_neg hsc] at h
      rw [List.append_assoc, List.append_assoc, List.append_assoc] at h
      rcases infixAppendSplit h with h₃ | h₃ | ⟨p, q, hpq, hp, hq, hsuf, hpre⟩
      · exact h₁ h₃
      · rcases infixAppendSplit h₃ with h₄ | h₄ | ⟨p, q, hpq, hp, hq, hsuf, hpre⟩
        · exact (by decide : ¬ "<draft>".toList <:+: "\n".toList) h₄
        · rcases infixAppendSplit h₄ with h₅ | h₅ | ⟨p, q, hpq, hp, hq, hsuf, hpre⟩
          · exact (by decide : ¬ "<draft>".toList <:+: "<source>\n".toList) h₅
          · rcases infixAppendSplit h₅ with h₆ | h₆ | ⟨p, q, hpq, hp, hq, hsuf, hpre⟩
            · exact h₂ h₆
            · exact (by decide : ¬ "<draft>".toList <:+: "</source>".toList) h₆
            · have hqt : q <:+ "<draft>".toList := ⟨p, hpq⟩
              have hqnil : q = [] := by
                have dT : ∀ q' ∈ ("<draft>".toList).tails,
                    q'.isPrefixOf ("</source>".toList) = true → q' = [] := by decide
                exact dT q ((mem_tails _ _).mpr hqt) (isPrefixOf_true.mpr hpre)
              exact hq hqnil
          · have hlast : '\n' ∈ p := suffixLastMem hsuf hp (by decide)
            have hmem : '\n' ∈ "<draft>".toList := by
              rw [← hpq]
              simp [List.mem_append, hlast]
            exact (by decide : '\n' ∉ "<draft>".toList) hmem
        · have hlast : '\n' ∈ p := suffixLastMem hsuf hp (by decide)
          have hmem : '\n' ∈ "<draft>".toList := by
            rw [← hpq]
            simp [List.mem_append, hlast]
          exact (by decide : '\n' ∉ "<draft>".toList) hmem
      · have hpre' : q <+: '\n' :: ("<source>\n".toList
            ++ ((source_code src).flatten ++ "</source>".toList)) := hpre
        have hhd : '\n' ∈ q := prefixHeadMem hpre' hq
        have hmem : '\n' ∈ "<draft>".toList := by
          rw [← hpq]
          simp [List.mem_append, hhd]
        exact (by decide : '\n' ∉ "<draft>".toList) hmem

/-- C9 witness: a non-empty draft is appended whole; a missing draft leaves
no `<draft>` tag in the built prompt. -/
theorem c9_draft_injection_witness :
    buildContent "SEED".toList "x = 1\n".toList (some "old draft\n".toList)
      = sourceInject "SEED".toList "x = 1\n".toList ++ "\n\n".toList
        ++ "<draft>\n".toList ++ "old draft\n".toList ++ "</draft>".toList
    ∧ ¬ "<draft>".toList <:+: buildContent "SEED".toList "x = 1\n".toList none :=
  ⟨c9_draft_injection.1 "SEED".toList "x = 1\n".toList "old draft\n".toList (by decide),
   c9_draft_injection.2.2 "SEED".toList "x = 1\n".toList (by decide) (by decide)⟩

/-- C9 counterexample: a draft file that exists but is empty appends
nothing — the built prompt equals the no-draft prompt and contains no
`<draft>` block, contradicting the claim that an existing draft file's
content is appended as a `<draft>...</draft>` block. -/
theorem c9_counterexample :
    buildContent "SEED".toList "x = 1\n".toList (some [])
      = buildContent "SEED".toList "x = 1\n".toList none
    ∧ ¬ "<draft>".toList <:+: buildContent "SEED".toList "x = 1\n".toList (some []) := by
  constructor
  · decide
  · rw [← occursB_true_iff]
    decide

/-- C10: with prompt-saving requested, the entry guard is bypassed — a unit
whose primary output already exists is still processed, and with a backend
configured its primary output is overwritten with the new extraction and
three writes are performed, so the re-run is not write-free. -/
theorem c10_save_prompts_bypasses_skip
    (chat : List Msg → Except (List Char) (List Char)) (nm : NeuralModel)
    (st : RunSt) (u : Unit') (lastM : Msg) (src result : List Char)
    (hfile : isfile st.fs u.csource = true)
    (hL : st.tmpl.getLast? = some lastM)
    (hF : List.lookup u.fsource st.fs = some src)
    (hC : chat (workingTemplate st u lastM src) = .ok result)
    (hne : u.finterface ≠ u.csource) :
    ∃ st', processUnit chat (some nm) true st u = .ok st'
      ∧ st'.statuses = st.statuses ++ [UStatus.processed]
      ∧ List.lookup u.csource st'.fs = some (primaryText result)
      ∧ st'.writes.length = st.writes.length + 3 := by
  have hcond : (!(isfile st.fs u.csource) || true) = true := by
    rw [hfile]
    rfl
  refine ⟨runResult st u true (workingTemplate st u lastM src) result,
    processUnit_run chat nm true st u lastM src result hcond hL hF hC, rfl, ?_, ?_⟩
  · unfold runResult
    dsimp only
    rw [lookup_fsWrite_ne _ _ _ _ hne, lookup_fsWrite_self]
  · unfold runResult
    simp

/-- C10 witness: the primary output held `"OLD"`, prompt-saving is on, and
the unit is processed and overwritten anyway. -/
theorem c10_save_prompts_bypasses_skip_witness :
    ∃ st', processUnit exChat (some NeuralModel.openai_) true exSt2 exUnit = .ok st'
      ∧ st'.statuses = exSt2.statuses ++ [UStatus.processed]
      ∧ List.lookup exUnit.csource st'.fs = some (primaryText "no tags at all".toList)
      ∧ st'.writes.length = exSt2.writes.length + 3 :=
  c10_save_prompts_bypasses_skip exChat NeuralModel.openai_ exSt2 exUnit
    { role := "user".toList, content := "SEED".toList } "x = 1\n".toList
    "no tags at all".toList (by decide) (by decide) (by decide) rfl (by decide)
